import Mathlib

/-!
Verification of the minui reactive component runtime (src/component.ts).

Each section embeds one part of the source as executable Lean definitions:
association-list helpers stand in for plain JS objects and Maps, the update
scheduler (notify / flushUpdates) is modelled as a state-passing function with
fuel for its self-recursion, and every directive (if, for, bind, on:event) is
translated from the corresponding block of the walk function.
-/

namespace Minui

/-- Lookup in an association list, mirroring JS object / Map read
(components[tag], depMap.get(k), bindingRegistry.get(id)). -/
def lookupA {κ α : Type} [DecidableEq κ] (k : κ) : List (κ × α) → Option α
  | [] => none
  | (k1, v) :: rest => if k1 = k then some v else lookupA k rest

/-- Write in an association list, mirroring JS object / Map assignment:
replaces the value of an existing key in place, otherwise appends. -/
def assocSet {κ α : Type} [DecidableEq κ] (k : κ) (v : α) : List (κ × α) → List (κ × α)
  | [] => [(k, v)]
  | (k1, v1) :: rest => if k1 = k then (k, v) :: rest else (k1, v1) :: assocSet k v rest

theorem lookupA_assocSet_self {κ α : Type} [DecidableEq κ] (k : κ) (v : α)
    (m : List (κ × α)) : lookupA k (assocSet k v m) = some v := by
  induction m with
  | nil => simp [lookupA, assocSet]
  | cons hd tl ih =>
    by_cases h : hd.1 = k
    · simp [assocSet, h, lookupA]
    · simp [assocSet, h, lookupA, ih]

theorem lookupA_assocSet_ne {κ α : Type} [DecidableEq κ] (k k2 : κ) (v : α)
    (m : List (κ × α)) (h : k2 ≠ k) : lookupA k2 (assocSet k v m) = lookupA k2 m := by
  induction m with
  | nil => simp [lookupA, assocSet, h, Ne.symm h]
  | cons hd tl ih =>
    by_cases h1 : hd.1 = k
    · simp [assocSet, h1, lookupA, h, Ne.symm h]
    · by_cases h2 : hd.1 = k2
      · simp [assocSet, h1, lookupA, h2, h]
      · simp [assocSet, h1, lookupA, h2, ih]

theorem lookupA_mem {κ α : Type} [DecidableEq κ] {k : κ} {v : α} {m : List (κ × α)}
    (h : lookupA k m = some v) : (k, v) ∈ m := by
  induction m with
  | nil => simp [lookupA] at h
  | cons hd tl ih =>
    by_cases h1 : hd.1 = k
    · simp [lookupA, h1] at h
      cases hd
      simp_all
    · simp [lookupA, h1] at h
      exact List.mem_cons_of_mem _ (ih h)

/-! ## Component registry (src/component.ts lines 89-96 and 1171)

The source checks the tag exactly as passed:
  if (components[tag]) throw new Error(...)
but stores the factory under the lowercased tag:
  components[tag.toLowerCase()] = factory
Factories are modelled by numeric identifiers; the thrown Error is Except.error.
-/

/-- ASCII lowercasing of a tag name, modelling String.prototype.toLowerCase
as used on registration and on el.tagName lookup during the walk. -/
def lowerTag (t : String) : String := ⟨t.data.map Char.toLower⟩

/-- The component function, restricted to its registry behaviour:
duplicate check on the exact tag, then store under the lowercased tag. -/
def componentRegister (tag : String) (fid : Nat) (reg : List (String × Nat)) :
    Except Unit (List (String × Nat)) :=
  if (lookupA tag reg).isSome then Except.error ()
  else Except.ok (assocSet (lowerTag tag) fid reg)

/-- Claim C7, counterexample: registering the tag Todo stores the factory under
the key todo, so a second registration of the very same tag Todo does not throw
and silently replaces the stored factory (the registry afterwards maps todo to
factory 2, not 1). This refutes the claim that component(tag, ...) throws
whenever a component is already registered for that tag. -/
theorem C7_duplicate_same_tag_not_detected :
    componentRegister "Todo" 1 [] = Except.ok [("todo", 1)] ∧
    componentRegister "Todo" 2 [("todo", 1)] = Except.ok [("todo", 2)] :=
  ⟨rfl, rfl⟩

/-- Claim C7, amended: component(tag, ...) throws if and only if the exact tag
string as passed is already a key of the registry; since writes store under the
lowercased tag, a successful call maps the lowercased tag to the new factory and
leaves every other key unchanged, while a throwing call performs no write at all. -/
theorem C7_register_guard (tag : String) (fid : Nat) (reg : List (String × Nat)) :
    ((componentRegister tag fid reg = Except.error ()) ↔ (lookupA tag reg).isSome = true) ∧
    (∀ r, componentRegister tag fid reg = Except.ok r →
      lookupA (lowerTag tag) r = some fid ∧
      ∀ k, k ≠ lowerTag tag → lookupA k r = lookupA k reg) := by
  unfold componentRegister
  by_cases h : (lookupA tag reg).isSome
  · simp [h]
  · simp [h]
    exact ⟨lookupA_assocSet_self _ _ _, fun k hk => lookupA_assocSet_ne _ _ _ _ hk⟩

/-- Witness for C7_register_guard at tag todo on the empty registry. -/
theorem C7_register_guard_witness :
    lookupA (lowerTag "todo") [("todo", 1)] = some 1 :=
  ((C7_register_guard "todo" 1 []).2 [("todo", 1)] rfl).1

/-- Claim C10, counterexample: after registering Todo (stored as todo),
registering its exact lowercase form todo does throw, because todo is now a key
of the registry. This refutes the part of the claim asserting that registering
the lowercase form of a previously registered mixed-case tag does not throw. -/
theorem C10_lowercase_rereg_throws :
    componentRegister "Todo" 1 [] = Except.ok [("todo", 1)] ∧
    componentRegister "todo" 2 [("todo", 1)] = Except.error () :=
  ⟨rfl, rfl⟩

/-- Claim C10, amended: the registry stores the factory under the lowercased tag
while the duplicate guard checks the tag exactly as passed, so the guard fires
precisely when the tag as passed is already a registry key; re-registering in
any casing that lowers to the same key but is not itself a key (for example the
original mixed-case tag again) does not throw and silently replaces the stored
factory, whereas re-registering the exact lowercase form throws. -/
theorem C10_case_sensitivity (tag t2 : String) (fid1 fid2 : Nat)
    (reg : List (String × Nat)) (h1 : lookupA tag reg = none) :
    componentRegister tag fid1 reg = Except.ok (assocSet (lowerTag tag) fid1 reg) ∧
    ((componentRegister t2 fid2 (assocSet (lowerTag tag) fid1 reg) = Except.error ()) ↔
      (lookupA t2 (assocSet (lowerTag tag) fid1 reg)).isSome = true) ∧
    (lowerTag t2 = lowerTag tag → lookupA t2 (assocSet (lowerTag tag) fid1 reg) = none →
      componentRegister t2 fid2 (assocSet (lowerTag tag) fid1 reg) =
        Except.ok (assocSet (lowerTag tag) fid2 (assocSet (lowerTag tag) fid1 reg)) ∧
      lookupA (lowerTag tag) (assocSet (lowerTag tag) fid2 (assocSet (lowerTag tag) fid1 reg)) =
        some fid2) ∧
    componentRegister (lowerTag tag) fid2 (assocSet (lowerTag tag) fid1 reg) =
      Except.error () := by
  refine ⟨?_, ?_, ?_, ?_⟩
  · unfold componentRegister
    simp [h1]
  · unfold componentRegister
    by_cases h : (lookupA t2 (assocSet (lowerTag tag) fid1 reg)).isSome <;> simp [h]
  · intro hl hn
    unfold componentRegister
    simp [hn, hl]
    exact lookupA_assocSet_self _ _ _
  · unfold componentRegister
    simp [lookupA_assocSet_self]

/-- Witness for C10_case_sensitivity: registering Todo then TODO overwrites. -/
theorem C10_case_sensitivity_witness :
    componentRegister "TODO" 2 [("todo", 1)] = Except.ok [("todo", 2)] :=
  (((C10_case_sensitivity "Todo" "TODO" 1 2 [] rfl).2.2.1) rfl rfl).1

/-! ## Update scheduler (src/component.ts lines 294-405, 408-453)

A component instance holds
  - pendingKeys, a JS Set of root keys awaiting a flush (insertion ordered),
  - depMap, mapping a root key to the binding ids that recorded it,
  - bindingRegistry, mapping a binding id to its recorded dependency set
    (the update closure itself is irrelevant to the claims: the flush only
    counts its invocations, so a binding is represented by its dep list),
  - computeds, mapping a computed key to its recorded dependency set.
notify adds the key and schedules one deferred flushUpdates per turn.
flushUpdates snapshots and clears pendingKeys, runs each depending binding at
most once per pass (the updatedBindings set), re-enqueues computed keys whose
dependencies were touched, and recurses while new keys appeared. The JS
recursion is unbounded, so the Lean model takes explicit fuel; theorems only
use runs where the fuel is not exhausted. -/

structure Sched where
  pendingKeys : List String
  depMap : List (String × List Nat)
  registry : List (Nat × List String)
  computeds : List (String × List String)
deriving Repr, DecidableEq

/-- JS Set.add: append the key unless already present (insertion order kept). -/
def listInsert (x : String) (l : List String) : List String :=
  if x ∈ l then l else l ++ [x]

/-- The notify function (lines 294-303): enqueue the key; the microtask flush
is modelled by the caller applying flushUpdates once per turn. -/
def notify (key : String) (s : Sched) : Sched :=
  { s with pendingKeys := listInsert key s.pendingKeys }

/-- depMap.get(k), an empty id list when the key has no entry. -/
def depIds (depMap : List (String × List Nat)) (k : String) : List Nat :=
  (lookupA k depMap).getD []

/-- One iteration of the inner loop of flushUpdates (lines 362-377): skip ids
missing from the registry, and run a binding only if not already updated in
this pass; the accumulator doubles as the updatedBindings set and the
invocation order, exactly as the JS Set records insertion order. -/
def addInvoked (registry : List (Nat × List String)) (u : List Nat) (id : Nat) : List Nat :=
  if (lookupA id registry).isSome then (if id ∈ u then u else u ++ [id]) else u

/-- Process the depMap entry of one pending key (lines 358-378). -/
def runKeyBindings (depMap : List (String × List Nat)) (registry : List (Nat × List String))
    (u : List Nat) (k : String) : List Nat :=
  (depIds depMap k).foldl (addInvoked registry) u

/-- The computed cascade for one pending key (lines 380-386): every computed
whose recorded deps contain the key is re-enqueued. -/
def cascadeComputeds (computeds : List (String × List String)) (pending : List String)
    (k : String) : List String :=
  computeds.foldl (fun p c => if k ∈ c.2 then listInsert c.1 p else p) pending

/-- One pass of flushUpdates over the snapshot of pendingKeys, producing the
ids invoked this pass and the keys the computed cascade re-enqueued. -/
def flushPass (s : Sched) : List Nat × List String :=
  s.pendingKeys.foldl
    (fun acc k => (runKeyBindings s.depMap s.registry acc.1 k,
                   cascadeComputeds s.computeds acc.2 k)) ([], [])

/-- The flushUpdates function (lines 305-405), with fuel for its recursion.
Returns the final scheduler state and the sequence of binding invocations. -/
def flushUpdates : Nat → Sched → Sched × List Nat
  | 0, s => (s, [])
  | fuel+1, s =>
    if s.pendingKeys = [] then (s, [])
    else
      let r := flushPass s
      if r.2 = [] then ({ s with pendingKeys := [] }, r.1)
      else
        let r2 := flushUpdates fuel { s with pendingKeys := r.2 }
        (r2.1, r.1 ++ r2.2)

/-- Check that the recorded dependency set of binding id contains key k. -/
def depOkB (registry : List (Nat × List String)) (k : String) (id : Nat) : Bool :=
  match lookupA id registry with
  | some dps => decide (k ∈ dps)
  | none => false

/-- Well-formedness that the bind function (lines 408-453) maintains: every
depMap entry lists each binding at most once and only bindings whose recorded
deps contain that key, and every registered dep is indexed in depMap. -/
def wf (s : Sched) : Bool :=
  s.depMap.all (fun p => decide p.2.Nodup && p.2.all (fun id => depOkB s.registry p.1 id)) &&
  s.registry.all (fun q => q.2.all (fun k => decide (q.1 ∈ depIds s.depMap k)))

/-- Scheduler configuration refuting claim C1: binding 1 recorded deps k and c,
where c is a computed property whose own deps contain k (as arises from a
binding over the expression k + c). -/
def C1sched : Sched :=
  { pendingKeys := []
  , depMap := [("k", [1]), ("c", [1])]
  , registry := [(1, ["k", "c"])]
  , computeds := [("c", ["k"])] }

/-- Claim C1, counterexample: one synchronous write to k (N = 1) makes the
flush invoke binding 1 twice, not once, although its last-recorded dependency
set contains k: the first pass runs it for k and re-enqueues the computed key
c, and the cascading second pass runs it again for c. -/
theorem C1_computed_cascade_double_invocation :
    lookupA 1 C1sched.registry = some ["k", "c"] ∧
    "k" ∈ ["k", "c"] ∧
    wf C1sched = true ∧
    (flushUpdates 2 (notify "k" C1sched)).2.count 1 = 2 := by decide

theorem mem_listInsert (x k : String) (l : List String) :
    x ∈ listInsert k l ↔ x ∈ l ∨ x = k := by
  unfold listInsert
  by_cases h : k ∈ l
  · simp [h]
    intro he
    subst he
    exact h
  · simp [h]

theorem mem_addInvoked (reg : List (Nat × List String)) (u : List Nat) (id x : Nat) :
    x ∈ addInvoked reg u id ↔ x ∈ u ∨ (x = id ∧ (lookupA id reg).isSome = true) := by
  unfold addInvoked
  by_cases h : (lookupA id reg).isSome
  · by_cases hm : id ∈ u
    · simp [h, hm]
      intro he
      subst he
      exact hm
    · simp [h, hm]
  · simp [h]

theorem nodup_addInvoked (reg : List (Nat × List String)) (u : List Nat) (id : Nat)
    (hu : u.Nodup) : (addInvoked reg u id).Nodup := by
  unfold addInvoked
  by_cases h : (lookupA id reg).isSome
  · by_cases hm : id ∈ u
    · simp [h, hm, hu]
    · simp [h, hm, List.nodup_append, hu, List.disjoint_singleton]
  · simp [h, hu]

theorem mem_foldl_addInvoked (reg : List (Nat × List String)) (l : List Nat) (u : List Nat)
    (x : Nat) : x ∈ l.foldl (addInvoked reg) u ↔
      x ∈ u ∨ (x ∈ l ∧ (lookupA x reg).isSome = true) := by
  induction l generalizing u with
  | nil => simp
  | cons a l ih =>
    rw [List.foldl_cons, ih, mem_addInvoked]
    constructor
    · rintro (((hx | ⟨he, hs⟩) | ⟨hl, hs⟩))
      · exact Or.inl hx
      · subst he
        exact Or.inr ⟨List.mem_cons_self _ _, hs⟩
      · exact Or.inr ⟨List.mem_cons_of_mem _ hl, hs⟩
    · rintro (hx | ⟨hm, hs⟩)
      · exact Or.inl (Or.inl hx)
      · rcases List.mem_cons.1 hm with he | hl
        · subst he
          exact Or.inl (Or.inr ⟨rfl, hs⟩)
        · exact Or.inr ⟨hl, hs⟩

theorem nodup_foldl_addInvoked (reg : List (Nat × List String)) (l : List Nat) (u : List Nat)
    (hu : u.Nodup) : (l.foldl (addInvoked reg) u).Nodup := by
  induction l generalizing u with
  | nil => exact hu
  | cons a l ih => exact ih _ (nodup_addInvoked reg u a hu)

theorem foldl_pair {α β γ : Type} (f : α → γ → α) (g : β → γ → β) (l : List γ)
    (a : α) (b : β) :
    l.foldl (fun p k => (f p.1 k, g p.2 k)) (a, b) = (l.foldl f a, l.foldl g b) := by
  induction l generalizing a b with
  | nil => rfl
  | cons c l ih => simp [List.foldl_cons, ih]

theorem flushPass_eq (s : Sched) :
    flushPass s = (s.pendingKeys.foldl (runKeyBindings s.depMap s.registry) [],
                   s.pendingKeys.foldl (cascadeComputeds s.computeds) []) := by
  unfold flushPass
  exact foldl_pair _ _ _ _ _

theorem mem_foldl_runKeyBindings (dm : List (String × List Nat))
    (reg : List (Nat × List String)) (ks : List String) (u : List Nat) (x : Nat) :
    x ∈ ks.foldl (runKeyBindings dm reg) u ↔
      x ∈ u ∨ ∃ k ∈ ks, x ∈ depIds dm k ∧ (lookupA x reg).isSome = true := by
  induction ks generalizing u with
  | nil => simp
  | cons a ks ih =>
    rw [List.foldl_cons, ih]
    unfold runKeyBindings
    rw [mem_foldl_addInvoked]
    constructor
    · rintro ((hx | ⟨hd, hs⟩) | ⟨k, hk, hd, hs⟩)
      · exact Or.inl hx
      · exact Or.inr ⟨a, List.mem_cons_self _ _, hd, hs⟩
      · exact Or.inr ⟨k, List.mem_cons_of_mem _ hk, hd, hs⟩
    · rintro (hx | ⟨k, hk, hd, hs⟩)
      · exact Or.inl (Or.inl hx)
      · rcases List.mem_cons.1 hk with he | hl
        · subst he
          exact Or.inl (Or.inr ⟨hd, hs⟩)
        · exact Or.inr ⟨k, hl, hd, hs⟩

theorem nodup_foldl_runKeyBindings (dm : List (String × List Nat))
    (reg : List (Nat × List String)) (ks : List String) (u : List Nat)
    (hu : u.Nodup) : (ks.foldl (runKeyBindings dm reg) u).Nodup := by
  induction ks generalizing u with
  | nil => exact hu
  | cons a ks ih => exact ih _ (nodup_foldl_addInvoked reg _ u hu)

theorem cascadeComputeds_nil (comps : List (String × List String)) (k : String)
    (p : List String) (hc : ∀ c ∈ comps, k ∉ c.2) :
    cascadeComputeds comps p k = p := by
  induction comps generalizing p with
  | nil => rfl
  | cons c cs ih =>
    unfold cascadeComputeds
    rw [List.foldl_cons]
    have hk : k ∉ c.2 := hc c (List.mem_cons_self _ _)
    simp [hk]
    exact ih p (fun d hd => hc d (List.mem_cons_of_mem _ hd))

theorem foldl_cascade_nil (comps : List (String × List String)) (ks : List String)
    (hc : ∀ c ∈ comps, ∀ k ∈ ks, k ∉ c.2) :
    ks.foldl (cascadeComputeds comps) [] = [] := by
  induction ks with
  | nil => rfl
  | cons a ks ih =>
    rw [List.foldl_cons, cascadeComputeds_nil comps a []
      (fun c hcm => hc c hcm a (List.mem_cons_self _ _))]
    exact ih (fun c hcm k hk => hc c hcm k (List.mem_cons_of_mem _ hk))

theorem depOkB_of_mem_depIds {s : Sched} (h : wf s = true) {k : String} {id : Nat}
    (hm : id ∈ depIds s.depMap k) : depOkB s.registry k id = true := by
  unfold depIds at hm
  cases hk : lookupA k s.depMap with
  | none => rw [hk] at hm; simp at hm
  | some l =>
    rw [hk] at hm
    simp at hm
    have hmem := lookupA_mem hk
    unfold wf at h
    rw [Bool.and_eq_true] at h
    have h1 := h.1
    rw [List.all_eq_true] at h1
    have h2 := h1 (k, l) hmem
    rw [Bool.and_eq_true] at h2
    have h3 := h2.2
    rw [List.all_eq_true] at h3
    exact h3 id hm

theorem mem_depIds_of_depOkB {s : Sched} (h : wf s = true) {k : String} {id : Nat}
    (hd : depOkB s.registry k id = true) : id ∈ depIds s.depMap k := by
  unfold depOkB at hd
  cases hr : lookupA id s.registry with
  | none => rw [hr] at hd; simp at hd
  | some dps =>
    rw [hr] at hd
    have hk : k ∈ dps := of_decide_eq_true hd
    have hmem := lookupA_mem hr
    unfold wf at h
    rw [Bool.and_eq_true] at h
    have h2 := h.2
    rw [List.all_eq_true] at h2
    have h3 := h2 (id, dps) hmem
    rw [List.all_eq_true] at h3
    exact of_decide_eq_true (h3 k hk)

theorem isSome_of_depOkB {reg : List (Nat × List String)} {k : String} {id : Nat}
    (hd : depOkB reg k id = true) : (lookupA id reg).isSome = true := by
  unfold depOkB at hd
  cases hr : lookupA id reg with
  | none => rw [hr] at hd; simp at hd
  | some dps => simp [hr]

/-- One-shot flush: when no computed property depends on any pending key, the
flush performs a single pass, drains the pending set, and invokes each binding
exactly once if some pending key is in its recorded dependency set, zero times
otherwise. -/
theorem flushOnce (s : Sched) (fuel : Nat) (hf : 1 ≤ fuel) (hwf : wf s = true)
    (hc : ∀ c ∈ s.computeds, ∀ k ∈ s.pendingKeys, k ∉ c.2) :
    (flushUpdates fuel s).1.pendingKeys = [] ∧
    ∀ id, (flushUpdates fuel s).2.count id =
      if s.pendingKeys.any (fun k => depOkB s.registry k id) then 1 else 0 := by
  obtain ⟨n, rfl⟩ : ∃ n, fuel = n + 1 := ⟨fuel - 1, by omega⟩
  by_cases hp : s.pendingKeys = []
  · constructor
    · simp [flushUpdates, hp]
    · intro id
      simp [flushUpdates, hp]
  · have hp2 : (flushPass s).2 = [] := by
      rw [flushPass_eq]
      exact foldl_cascade_nil _ _ hc
    have heq : flushUpdates (n + 1) s = ({ s with pendingKeys := [] }, (flushPass s).1) := by
      simp [flushUpdates, hp, hp2]
    rw [heq]
    refine ⟨rfl, ?_⟩
    intro id
    have h1 : (flushPass s).1 = s.pendingKeys.foldl (runKeyBindings s.depMap s.registry) [] := by
      rw [flushPass_eq]
    have hnd : (flushPass s).1.Nodup := by
      rw [h1]
      exact nodup_foldl_runKeyBindings _ _ _ _ List.nodup_nil
    have hmemiff : id ∈ (flushPass s).1 ↔
        s.pendingKeys.any (fun k => depOkB s.registry k id) = true := by
      rw [h1, mem_foldl_runKeyBindings]
      simp only [List.not_mem_nil, false_or, List.any_eq_true]
      constructor
      · rintro ⟨k, hk, hd, hs⟩
        exact ⟨k, hk, depOkB_of_mem_depIds hwf hd⟩
      · rintro ⟨k, hk, hd⟩
        exact ⟨k, hk, mem_depIds_of_depOkB hwf hd, isSome_of_depOkB hd⟩
    by_cases ha : s.pendingKeys.any (fun k => depOkB s.registry k id) = true
    · rw [if_pos ha]
      have hm : id ∈ (flushPass s).1 := hmemiff.2 ha
      have hle := List.nodup_iff_count_le_one.1 hnd id
      have hpos := List.count_pos_iff.2 hm
      show (flushPass s).1.count id = 1
      omega
    · rw [if_neg ha]
      show (flushPass s).1.count id = 0
      rw [List.count_eq_zero]
      intro hm
      exact ha (hmemiff.1 hm)

theorem notify_fixed (k : String) (s : Sched) (h : s.pendingKeys = [k]) :
    notify k s = s := by
  cases s
  simp_all [notify, listInsert]

theorem iterate_notify_fixed (k : String) (m : Nat) (t : Sched) (h : t.pendingKeys = [k]) :
    (notify k)^[m] t = t := by
  induction m with
  | zero => rfl
  | succ m ih => rw [Function.iterate_succ_apply, notify_fixed k t h]; exact ih

theorem iterate_notify (k : String) (N : Nat) (hN : 1 ≤ N) (s : Sched)
    (hp : s.pendingKeys = []) :
    (notify k)^[N] s = { s with pendingKeys := [k] } := by
  obtain ⟨m, rfl⟩ : ∃ m, N = m + 1 := ⟨N - 1, by omega⟩
  rw [Function.iterate_succ_apply]
  have h1 : notify k s = { s with pendingKeys := [k] } := by
    cases s
    simp_all [notify, listInsert]
  rw [h1]
  exact iterate_notify_fixed k m _ rfl

/-- Claim C1, amended: in a well-formed component whose computed properties do
not depend on k, any sequence of N >= 1 synchronous notify calls for k within
one turn makes the deferred flush invoke each binding whose recorded dependency
set contains k exactly once, and every other binding zero times. (Without the
computed-property proviso the claim fails: see the counterexample, where the
cascading second flush pass re-invokes a binding that also depends on a
computed of k.) -/
theorem C1_coalescing (s : Sched) (k : String) (N fuel : Nat) (hN : 1 ≤ N)
    (hf : 1 ≤ fuel) (hwf : wf s = true) (hp : s.pendingKeys = [])
    (hc : ∀ c ∈ s.computeds, k ∉ c.2) :
    ∀ id dps, lookupA id s.registry = some dps →
      (flushUpdates fuel ((notify k)^[N] s)).2.count id = if k ∈ dps then 1 else 0 := by
  intro id dps hl
  rw [iterate_notify k N hN s hp]
  have hwft : wf { s with pendingKeys := [k] } = true := hwf
  have hct : ∀ c ∈ ({ s with pendingKeys := [k] } : Sched).computeds,
      ∀ k2 ∈ ({ s with pendingKeys := [k] } : Sched).pendingKeys, k2 ∉ c.2 := by
    intro c hcm k2 hk2
    have hk2e : k2 = k := by simpa using hk2
    subst hk2e
    exact hc c hcm
  have h := (flushOnce { s with pendingKeys := [k] } fuel hf hwft hct).2 id
  rw [h]
  have hany : (({ s with pendingKeys := [k] } : Sched).pendingKeys.any
      (fun k2 => depOkB ({ s with pendingKeys := [k] } : Sched).registry k2 id))
      = depOkB s.registry k id := by
    simp
  rw [hany]
  unfold depOkB
  rw [hl]
  by_cases hk : k ∈ dps
  · simp [hk]
  · simp [hk]

/-- Scheduler used to witness C1_coalescing: binding 1 depends on k, binding 2
depends on x only, no computed properties. -/
def C1wit : Sched :=
  { pendingKeys := []
  , depMap := [("k", [1]), ("x", [2])]
  , registry := [(1, ["k"]), (2, ["x"])]
  , computeds := [] }

/-- Witness for C1_coalescing: three writes to k invoke binding 1 once and
binding 2 zero times. -/
theorem C1_coalescing_witness :
    (flushUpdates 1 ((notify "k")^[3] C1wit)).2.count 1 = 1 ∧
    (flushUpdates 1 ((notify "k")^[3] C1wit)).2.count 2 = 0 := by
  constructor
  · have h := C1_coalescing C1wit "k" 3 1 (by decide) (by decide) (by decide) rfl
      (by simp [C1wit]) 1 ["k"] rfl
    rw [if_pos (by decide)] at h
    exact h
  · have h := C1_coalescing C1wit "k" 3 1 (by decide) (by decide) (by decide) rfl
      (by simp [C1wit]) 2 ["x"] rfl
    rw [if_neg (by decide)] at h
    exact h

/-! ## Event handlers on plain elements (src/component.ts lines 939-997)

An on:event handler executes the compiled statement, then calls flushUpdates
synchronously inside the dispatch (line 963), and finally assigns a class to
the event target (lines 968-983): the optimized true value when the target
carries a registration whose attribute is class and non-boolean, otherwise the
literal class selected. An exception from the statement skips all of this
(the surrounding try/catch). The statement itself is modelled by the list of
root keys it writes. -/

/-- The sequence of notify calls made by the state writes of the statement. -/
def dispatchWrites (ws : List String) (s : Sched) : Sched :=
  ws.foldl (fun t w => notify w t) s

/-- An optimizedIndexMap entry (lines 124-130), as resolved from the target
element through its registration tag. -/
structure RegEntry where
  trueVal : Option String
  falseVal : Option String
  isBoolean : Bool
  attr : String
deriving Repr, DecidableEq

/-- The event target element: its current class attribute, and its resolved
optimizedIndexMap registration, if any. -/
structure TargetEl where
  className : String
  regEntry : Option RegEntry
deriving Repr, DecidableEq

/-- The class assignment at the end of a successful plain-element handler
(lines 968-983): the optimized true value for a class-valued non-boolean
registration, else the literal fallback class selected. -/
def handlerClassAssign (el : TargetEl) : TargetEl :=
  match el.regEntry with
  | some reg =>
      if reg.attr = "class" ∧ reg.isBoolean = false then
        { el with className := reg.trueVal.getD "" }
      else { el with className := "selected" }
  | none => { el with className := "selected" }

/-- One dispatch of an on:event handler on a plain element (lines 947-989):
run the statement (its state writes), flush synchronously, then assign the
class on the target; on a throwing statement nothing further happens. -/
def onEventDispatch (stmtOk : Bool) (ws : List String) (fuel : Nat) (s : Sched)
    (target : Option TargetEl) : (Sched × List Nat) × Option TargetEl :=
  if stmtOk then
    (flushUpdates fuel (dispatchWrites ws s), target.map handlerClassAssign)
  else ((s, []), target)

theorem dispatchWrites_fields (ws : List String) (s : Sched) :
    (dispatchWrites ws s).depMap = s.depMap ∧
    (dispatchWrites ws s).registry = s.registry ∧
    (dispatchWrites ws s).computeds = s.computeds := by
  induction ws generalizing s with
  | nil => exact ⟨rfl, rfl, rfl⟩
  | cons w ws ih => exact ih (notify w s)

theorem mem_dispatchWrites (ws : List String) (s : Sched) (x : String) :
    x ∈ (dispatchWrites ws s).pendingKeys ↔ x ∈ s.pendingKeys ∨ x ∈ ws := by
  induction ws generalizing s with
  | nil => simp [dispatchWrites]
  | cons w ws ih =>
    have h1 : (dispatchWrites (w :: ws) s) = dispatchWrites ws (notify w s) := rfl
    rw [h1, ih (notify w s)]
    have h2 : (notify w s).pendingKeys = listInsert w s.pendingKeys := rfl
    rw [h2, mem_listInsert, List.mem_cons]
    tauto

theorem wf_dispatchWrites (ws : List String) (s : Sched) :
    wf (dispatchWrites ws s) = wf s := by
  obtain ⟨h1, h2, _⟩ := dispatchWrites_fields ws s
  unfold wf
  rw [h1, h2]

/-- First pass of a flush: a binding invoked by the first pass appears at
least once in the total invocation list, whatever the computed cascade adds
in later passes. -/
theorem flush_first_pass_le (s : Sched) (fuel : Nat) (hf : 1 ≤ fuel) (id : Nat)
    (hm : id ∈ (flushPass s).1) (hp : s.pendingKeys ≠ []) :
    1 ≤ (flushUpdates fuel s).2.count id := by
  obtain ⟨n, rfl⟩ : ∃ n, fuel = n + 1 := ⟨fuel - 1, by omega⟩
  by_cases h2 : (flushPass s).2 = []
  · have heq : flushUpdates (n + 1) s = ({ s with pendingKeys := [] }, (flushPass s).1) := by
      simp [flushUpdates, hp, h2]
    rw [heq]
    exact List.count_pos_iff.2 hm
  · have heq : flushUpdates (n + 1) s =
        ((flushUpdates n { s with pendingKeys := (flushPass s).2 }).1,
         (flushPass s).1 ++ (flushUpdates n { s with pendingKeys := (flushPass s).2 }).2) := by
      simp [flushUpdates, hp, h2]
    rw [heq]
    show 1 ≤ ((flushPass s).1 ++
      (flushUpdates n { s with pendingKeys := (flushPass s).2 }).2).count id
    rw [List.count_append]
    have hpos := List.count_pos_iff.2 hm
    omega

/-- Claim C8: a non-throwing on:event handler calls flushUpdates synchronously
inside the dispatch, so in every component, computed properties included, each
binding depending on a key that was pending before the dispatch or written by
the statement is invoked at least once before the handler returns: the first
flush pass snapshots and processes all those keys within the dispatch, not in
a deferred microtask. When additionally no computed property depends on any
of those keys, the flush is a single pass: afterwards nothing is left pending
and each such binding has been invoked exactly once (a computed cascade can
only add further synchronous invocations, see the C1 counterexample). -/
theorem C8_handler_sync_flush (s : Sched) (ws : List String) (fuel : Nat)
    (t : Option TargetEl) (hf : 1 ≤ fuel) (hwf : wf s = true) :
    (∀ id, (∃ k, (k ∈ s.pendingKeys ∨ k ∈ ws) ∧ depOkB s.registry k id = true) →
      1 ≤ (onEventDispatch true ws fuel s t).1.2.count id) ∧
    ((∀ c ∈ s.computeds, ∀ k, (k ∈ s.pendingKeys ∨ k ∈ ws) → k ∉ c.2) →
      ((onEventDispatch true ws fuel s t).1.1.pendingKeys = []) ∧
      ∀ id, (onEventDispatch true ws fuel s t).1.2.count id =
        if (s.pendingKeys ++ ws).any (fun k => depOkB s.registry k id) then 1 else 0) := by
  have hfields := dispatchWrites_fields ws s
  have hwf2 : wf (dispatchWrites ws s) = true := by
    rw [wf_dispatchWrites]
    exact hwf
  constructor
  · intro id hex
    obtain ⟨k, hk, hd⟩ := hex
    have hk2 : k ∈ (dispatchWrites ws s).pendingKeys :=
      (mem_dispatchWrites ws s k).2 hk
    have hreg : (lookupA id (dispatchWrites ws s).registry).isSome = true := by
      rw [hfields.2.1]
      exact isSome_of_depOkB hd
    have hdep : id ∈ depIds (dispatchWrites ws s).depMap k := by
      rw [hfields.1]
      exact mem_depIds_of_depOkB hwf hd
    have h1 : (flushPass (dispatchWrites ws s)).1 =
        (dispatchWrites ws s).pendingKeys.foldl
          (runKeyBindings (dispatchWrites ws s).depMap (dispatchWrites ws s).registry) [] := by
      rw [flushPass_eq]
    have hmem : id ∈ (flushPass (dispatchWrites ws s)).1 := by
      rw [h1, mem_foldl_runKeyBindings]
      exact Or.inr ⟨k, hk2, hdep, hreg⟩
    have hpne : (dispatchWrites ws s).pendingKeys ≠ [] := by
      intro h0
      rw [h0] at hk2
      simp at hk2
    have hle := flush_first_pass_le (dispatchWrites ws s) fuel hf id hmem hpne
    exact hle
  · intro hcs
    have hc2 : ∀ c ∈ (dispatchWrites ws s).computeds,
        ∀ k ∈ (dispatchWrites ws s).pendingKeys, k ∉ c.2 := by
      rw [hfields.2.2]
      intro c hcm k hkm
      exact hcs c hcm k ((mem_dispatchWrites ws s k).1 hkm)
    have h := flushOnce (dispatchWrites ws s) fuel hf hwf2 hc2
    refine ⟨h.1, ?_⟩
    intro id
    have hcount : (onEventDispatch true ws fuel s t).1.2.count id =
        (flushUpdates fuel (dispatchWrites ws s)).2.count id := rfl
    rw [hcount, h.2 id]
    have hiff : (((dispatchWrites ws s).pendingKeys.any
          fun k => depOkB (dispatchWrites ws s).registry k id) = true) ↔
        (((s.pendingKeys ++ ws).any fun k => depOkB s.registry k id) = true) := by
      rw [hfields.2.1]
      simp only [List.any_eq_true, List.mem_append]
      constructor
      · rintro ⟨k, hk, hd⟩
        exact ⟨k, (mem_dispatchWrites ws s k).1 hk, hd⟩
      · rintro ⟨k, hk, hd⟩
        exact ⟨k, (mem_dispatchWrites ws s k).2 hk, hd⟩
    rw [Bool.eq_iff_iff.2 hiff]

/-- Witness for C8_handler_sync_flush: a handler writing k on a component
with one binding over k invokes it within the dispatch, leaves nothing
pending, and runs it exactly once. -/
theorem C8_handler_sync_flush_witness :
    1 ≤ (onEventDispatch true ["k"] 1 (⟨[], [("k", [1])], [(1, ["k"])], []⟩ : Sched)
      none).1.2.count 1 ∧
    (onEventDispatch true ["k"] 1 (⟨[], [("k", [1])], [(1, ["k"])], []⟩ : Sched)
      none).1.1.pendingKeys = [] ∧
    (onEventDispatch true ["k"] 1 (⟨[], [("k", [1])], [(1, ["k"])], []⟩ : Sched)
      none).1.2.count 1 = 1 := by
  have h := C8_handler_sync_flush ⟨[], [("k", [1])], [(1, ["k"])], []⟩ ["k"] 1 none
    (by decide) (by decide)
  have hb := h.2 (by simp)
  refine ⟨h.1 1 ⟨"k", Or.inr (by decide), by decide⟩, hb.1, ?_⟩
  have h2 := hb.2 1
  rw [if_pos (by decide)] at h2
  exact h2

/-- Claim C9: after a plain-element on:event handler runs its statement
without throwing, the engine always assigns a class to the event target:
the resulting class does not depend on the previous class at all, it is the
literal selected when the target has no class-valued optimized registration,
and the registered optimized true value otherwise. -/
theorem C9_unconditional_class (s : Sched) (ws : List String) (fuel : Nat)
    (cn cn2 : String) (re : Option RegEntry) :
    ((onEventDispatch true ws fuel s (some ⟨cn, re⟩)).2).map TargetEl.className =
      ((onEventDispatch true ws fuel s (some ⟨cn2, re⟩)).2).map TargetEl.className ∧
    ((onEventDispatch true ws fuel s (some ⟨cn, none⟩)).2).map TargetEl.className =
      some "selected" ∧
    (∀ r : RegEntry, r.attr = "class" → r.isBoolean = false →
      ((onEventDispatch true ws fuel s (some ⟨cn, some r⟩)).2).map TargetEl.className =
        some (r.trueVal.getD "")) ∧
    (∀ r : RegEntry, ¬(r.attr = "class" ∧ r.isBoolean = false) →
      ((onEventDispatch true ws fuel s (some ⟨cn, some r⟩)).2).map TargetEl.className =
        some "selected") := by
  refine ⟨?_, ?_, ?_, ?_⟩
  · unfold onEventDispatch handlerClassAssign
    simp only [if_pos, Option.map_some]
    cases re with
    | none => rfl
    | some r =>
      by_cases h : r.attr = "class" ∧ r.isBoolean = false
      · simp [h]
      · simp [h]
  · unfold onEventDispatch handlerClassAssign
    simp
  · intro r h1 h2
    unfold onEventDispatch handlerClassAssign
    simp [h1, h2]
  · intro r h
    unfold onEventDispatch handlerClassAssign
    simp [h]

/-- Witness for C9_unconditional_class: a target with no registration and an
unrelated class gets the literal class selected. -/
theorem C9_unconditional_class_witness :
    ((onEventDispatch true [] 1 (⟨[], [], [], []⟩ : Sched)
        (some ⟨"card", none⟩)).2).map TargetEl.className = some "selected" ∧
    ((onEventDispatch true [] 1 (⟨[], [], [], []⟩ : Sched)
        (some ⟨"card", some ⟨some "active", some "", false, "class"⟩⟩)).2).map
      TargetEl.className = some "active" := by
  constructor
  · exact (C9_unconditional_class ⟨[], [], [], []⟩ [] 1 "card" "x" none).2.1
  · have h := (C9_unconditional_class ⟨[], [], [], []⟩ [] 1 "card" "x"
      (some ⟨some "active", some "", false, "class"⟩)).2.2.1
      ⟨some "active", some "", false, "class"⟩ rfl rfl
    simpa using h

/-! ## Dependency recording of bindings (src/component.ts lines 265-291, 408-453)

An update function is represented by its read trace: the list of root keys a
run of the function reads at a given state. For every binding whose update
function goes through evaluate, that trace is the entire list of own
enumerable root keys of the state at the time of the run: evaluate builds its
scope as a spread of stateProxy (line 281), and while a tracking scope is
active the spread reads every own enumerable key through the proxy get trap
(lines 204-213), whatever the expression says. Root keys can be added to the
state after registration, since any proxy write of a fresh key creates it:
a parent prop binding writing a child key absent from the child state (line
914), or a write through the state handle the factory returns (line 1153);
the trace of a later run then differs from the registration-time trace.
The bind function runs the update function once inside track, recording that
initial trace into binding.deps (lines 410-414). flushUpdates later calls
binding.update() directly (line 369) while the ambient tracking variable is
null, so a flush-time re-run records nothing and the stored dependency set is
never modified afterwards. -/

structure TrackedBinding (σ : Type) where
  readsOf : σ → List String
  deps : List String

/-- The bind function (lines 408-414): run the update function under track
once and store the recorded read set as the binding dependency set. -/
def bindRegister {σ : Type} (readsOf : σ → List String) (st : σ) : TrackedBinding σ :=
  { readsOf := readsOf, deps := readsOf st }

/-- A flush-time invocation of binding.update() (line 369): the function runs
against the current state, but tracking is null, so the binding record is
returned with its dependency set unchanged. -/
def flushInvoke {σ : Type} (b : TrackedBinding σ) (_st : σ) : TrackedBinding σ :=
  b

/-- Read trace of an update function that evaluates its expression through
evaluate: the scope spread at line 281 reads every own enumerable root key of
the state through the get trap while tracking is active, so the trace is the
current root key list of the state, here modelled as the state itself. -/
def evalSpreadReads : List String → List String :=
  fun rootKeys => rootKeys

/-- Claim C2, counterexample: a binding registered through evaluate while the
state owns the root keys go and a records exactly that key list as its deps;
after a fresh root key b is created on the state and a flush re-runs the
binding, the most recent execution reads go, a and b (the spread reads every
current key), yet the dependency set consulted at the next flush is still go
and a: the recorded set did not follow the most recent execution, so a write
to b alone will not re-run this binding. -/
theorem C2_stale_deps :
    (bindRegister evalSpreadReads ["go", "a"]).deps = ["go", "a"] ∧
    (flushInvoke (bindRegister evalSpreadReads ["go", "a"]) ["go", "a", "b"]).deps =
      ["go", "a"] ∧
    evalSpreadReads ["go", "a", "b"] = ["go", "a", "b"] ∧
    (["go", "a"] : List String) ≠ ["go", "a", "b"] := by decide

/-- Claim C2, amended: a binding dependency set equals exactly the set of root
keys read during its initial tracked execution at registration time (for an
evaluate-based binding, the full root key list of the state as of
registration), and any number of subsequent update runs during flushes leaves
it unchanged, so it can neither grow nor shrink between flushes. -/
theorem C2_deps_fixed {σ : Type} (readsOf : σ → List String) (st0 : σ)
    (runs : List σ) :
    (runs.foldl flushInvoke (bindRegister readsOf st0)).deps = readsOf st0 := by
  have h : ∀ (b : TrackedBinding σ) (l : List σ), l.foldl flushInvoke b = b := by
    intro b l
    induction l with
    | nil => rfl
    | cons x l ih => exact ih
  rw [h]
  rfl

/-! ## Conditional directive (src/component.ts lines 521-546)

The if directive captures the element as a detached template, replaces it by a
comment placeholder, and registers one binding: when the boolean-coerced
expression is truthy and nothing is rendered, a fresh clone of the template is
inserted right after the placeholder and walked; when falsy and a clone is
rendered, the clone is removed from the tree and the slot reset to null.
A clone is modelled as a pair of a fresh numeric identity and its current
subtree content (initially the template); outside code may mutate the content
of a rendered clone between updates. -/

structure IfSt (α : Type) where
  rendered : Option (Nat × α)
  nextId : Nat
deriving Repr, DecidableEq

/-- The update function of the if binding (lines 532-543). -/
def ifUpdate {α : Type} (template : α) (cond : Bool) (st : IfSt α) : IfSt α :=
  if cond then
    match st.rendered with
    | none => { rendered := some (st.nextId, template), nextId := st.nextId + 1 }
    | some _ => st
  else
    match st.rendered with
    | some _ => { st with rendered := none }
    | none => st

/-- Arbitrary outside mutation of the currently rendered subtree content
(user input, attribute writes), leaving the clone identity fixed. -/
def mutateClone {α : Type} (f : α → α) (st : IfSt α) : IfSt α :=
  { st with rendered := st.rendered.map (fun p => (p.1, f p.2)) }

/-- Claim C5: when the condition turns falsy the rendered clone is removed
(the slot becomes empty, not hidden), and when the condition turns truthy
again a fresh clone of the captured template is rendered: it has a new
identity and pristine template content, regardless of any mutation applied to
the previous clone, so no subtree state survives a remove and re-add cycle. -/
theorem C5_if_fresh_clone {α : Type} (template : α) (st : IfSt α) (i : Nat) (c : α)
    (f : α → α) (hr : st.rendered = some (i, c)) (hb : i < st.nextId) :
    (ifUpdate template false st).rendered = none ∧
    (ifUpdate template true (mutateClone f (ifUpdate template false st))).rendered =
      some (st.nextId, template) ∧
    st.nextId ≠ i := by
  have h1 : ifUpdate template false st = { st with rendered := none } := by
    unfold ifUpdate
    rw [hr]
    simp
  refine ⟨by rw [h1], ?_, by omega⟩
  rw [h1]
  unfold mutateClone ifUpdate
  simp

/-- Witness for C5_if_fresh_clone: a mutated clone removed and re-added comes
back as a fresh pristine copy of the template. -/
theorem C5_if_fresh_clone_witness :
    (ifUpdate "tpl" false (⟨some (0, "dirty"), 1⟩ : IfSt String)).rendered = none ∧
    (ifUpdate "tpl" true (mutateClone (fun s => s ++ "!")
      (ifUpdate "tpl" false (⟨some (0, "dirty"), 1⟩ : IfSt String)))).rendered =
      some (1, "tpl") ∧
    (1 : Nat) ≠ 0 :=
  C5_if_fresh_clone "tpl" ⟨some (0, "dirty"), 1⟩ 0 "dirty" (fun s => s ++ "!")
    rfl (by decide)

/-! ## List directive (src/component.ts lines 549-773 and 216-227)

The array-method wrapper of the proxy (lines 216-227) records the LAST mutator
operation per root key into pendingArrayOps (a later op in the same turn
overwrites an earlier one). The for binding (lines 568-769) re-evaluates the
array and consults that recorded op: a push appends one clone per recorded
argument, built from array[array.length - args.length + a]; a pop removes the
last rendered clone; every other op (or no recorded op) does a full re-render,
cloning the template once per element in order. A clone is modelled by a fresh
numeric identity plus the item value it was built from (an out-of-range index
access yields none, like the JS undefined). -/

inductive ArrOp (α : Type)
  | push (args : List α)
  | pop
  | shift
  | unshift (args : List α)
  | splice
  | sort
  | reverse
deriving Repr, DecidableEq

structure ForSt (α : Type) where
  rendered : List (Nat × Option α)
  nextId : Nat
deriving Repr, DecidableEq

/-- The full re-render loop (lines 690-767): one fresh clone per element of
the array, in array order, each built from array[i]. -/
def fullClones {α : Type} (nid : Nat) : List α → List (Nat × Option α)
  | [] => []
  | x :: rest => (nid, some x) :: fullClones (nid + 1) rest

/-- The incremental push loop (lines 581-653): one fresh clone per recorded
push argument, built from array[array.length - args.length + a] and appended
after the existing clones. -/
def pushClones {α : Type} (arr : List α) (nargs : Nat) (nid : Nat) :
    List (Nat × Option α) :=
  (List.range nargs).map (fun a => (nid + a, arr[arr.length - nargs + a]?))

/-- One run of the for binding update (lines 568-769), given the current
array value and the recorded array op for its root key (none when this flush
was not caused by an array mutator). -/
def forUpdate {α : Type} (arr : List α) (op : Option (ArrOp α)) (st : ForSt α) :
    ForSt α :=
  match op with
  | some (ArrOp.push args) =>
      { rendered := st.rendered ++ pushClones arr args.length st.nextId
      , nextId := st.nextId + args.length }
  | some ArrOp.pop => { st with rendered := st.rendered.dropLast }
  | _ => { rendered := fullClones st.nextId arr, nextId := st.nextId + arr.length }

/-- Item values shown by the rendered clones, in document order. -/
def cloneVals {α : Type} (st : ForSt α) : List (Option α) :=
  st.rendered.map Prod.snd

/-- Operations handled incrementally by tryIncremental (push and pop);
everything else falls back to a full re-render. -/
def isIncrementalOp {α : Type} (op : Option (ArrOp α)) : Bool :=
  match op with
  | some (ArrOp.push _) => true
  | some ArrOp.pop => true
  | _ => false

/-- Claim C3, counterexample: two pushes inside one turn. Starting from the
rendered list for the array of 1 and 2, pushing 3 and then 4 before the flush
leaves only the last recorded op (push 4), so the settled incremental patch
renders 3 clones for the 4-element array and the element 3 never appears:
clone count differs from the array length and the order is not the array. -/
theorem C3_double_push_mismatch :
    cloneVals (forUpdate [1, 2] none (⟨[], 0⟩ : ForSt Nat)) = [some 1, some 2] ∧
    ([1, 2, 3, 4] : List Nat).length = 4 ∧
    (forUpdate [1, 2, 3, 4] (some (ArrOp.push [4]))
      (forUpdate [1, 2] none (⟨[], 0⟩ : ForSt Nat))).rendered.length = 3 ∧
    cloneVals (forUpdate [1, 2, 3, 4] (some (ArrOp.push [4]))
      (forUpdate [1, 2] none (⟨[], 0⟩ : ForSt Nat))) = [some 1, some 2, some 4] := by
  decide

theorem fullClones_vals {α : Type} (nid : Nat) (l : List α) :
    (fullClones nid l).map Prod.snd = l.map some := by
  induction l generalizing nid with
  | nil => rfl
  | cons x rest ih => simp [fullClones, ih]

theorem pushClones_vals {α : Type} (old args : List α) (nid : Nat) :
    (pushClones (old ++ args) args.length nid).map Prod.snd = args.map some := by
  unfold pushClones
  rw [List.map_map]
  have hlen : (old ++ args).length - args.length = old.length := by
    simp [List.length_append]
  apply List.ext_getElem?_iff.mpr
  intro n
  by_cases hn : n < args.length
  · rw [List.getElem?_map, List.getElem?_map, List.getElem?_range hn]
    have h1 : (old ++ args)[(old ++ args).length - args.length + n]? = args[n]? := by
      rw [hlen, List.getElem?_append_right (Nat.le_add_right _ _)]
      congr 1
      omega
    show some ((old ++ args)[(old ++ args).length - args.length + n]?) =
      Option.map some args[n]?
    rw [h1, List.getElem?_eq_getElem hn]
    rfl
  · rw [List.getElem?_map, List.getElem?_map]
    have hr : (List.range args.length)[n]? = none :=
      List.getElem?_eq_none (by simpa using hn)
    have h2 : args[n]? = none := List.getElem?_eq_none (by omega)
    rw [hr, h2]
    rfl

/-- Claim C3, amended: the full re-render path always renders exactly one
clone per array element in array order; when the single recorded op of the
turn matches the actual array delta, the incremental paths are faithful too:
a push whose arguments are exactly the new tail appends one clone per pushed
element at the end without touching the existing clones (the prefix is the
previous rendered list, identities included), and a pop removes exactly the
last clone. When several mutators run in one turn the recorded op no longer
matches the delta and the claim fails (see the counterexample). -/
theorem C3_list_fidelity {α : Type} (old arr args : List α) (x : α) (st : ForSt α)
    (hm : cloneVals st = old.map some) :
    (∀ op : Option (ArrOp α), isIncrementalOp op = false →
      cloneVals (forUpdate arr op st) = arr.map some) ∧
    (arr = old ++ args →
      (forUpdate arr (some (ArrOp.push args)) st).rendered.take st.rendered.length
        = st.rendered ∧
      cloneVals (forUpdate arr (some (ArrOp.push args)) st) = arr.map some) ∧
    (old = arr ++ [x] →
      cloneVals (forUpdate arr (some ArrOp.pop) st) = arr.map some) := by
  refine ⟨?_, ?_, ?_⟩
  · intro op hop
    cases op with
    | none => simp [forUpdate, cloneVals, fullClones_vals]
    | some o =>
      cases o with
      | push as => simp [isIncrementalOp] at hop
      | pop => simp [isIncrementalOp] at hop
      | shift => simp [forUpdate, cloneVals, fullClones_vals]
      | unshift as => simp [forUpdate, cloneVals, fullClones_vals]
      | splice => simp [forUpdate, cloneVals, fullClones_vals]
      | sort => simp [forUpdate, cloneVals, fullClones_vals]
      | reverse => simp [forUpdate, cloneVals, fullClones_vals]
  · intro harr
    subst harr
    constructor
    · show (st.rendered ++ pushClones (old ++ args) args.length st.nextId).take
        st.rendered.length = st.rendered
      exact List.take_left _ _
    · show (st.rendered ++ pushClones (old ++ args) args.length st.nextId).map Prod.snd
        = (old ++ args).map some
      rw [List.map_append, pushClones_vals]
      rw [show st.rendered.map Prod.snd = cloneVals st from rfl, hm, List.map_append]
  · intro hold
    show (st.rendered.dropLast).map Prod.snd = arr.map some
    rw [List.map_dropLast]
    rw [show st.rendered.map Prod.snd = cloneVals st from rfl, hm, hold, List.map_append]
    simp [List.dropLast_concat]

/-- Witness for C3_list_fidelity: a matching single push appends one clone,
a full re-render follows the new array, and a matching pop drops the last. -/
theorem C3_list_fidelity_witness :
    cloneVals (forUpdate [10, 20] (some (ArrOp.push [20]))
      (⟨[(5, some 10)], 6⟩ : ForSt Nat)) = [some 10, some 20] ∧
    cloneVals (forUpdate [7, 8] none (⟨[(5, some 10)], 6⟩ : ForSt Nat))
      = [some 7, some 8] ∧
    cloneVals (forUpdate [] (some ArrOp.pop) (⟨[(5, some 10)], 6⟩ : ForSt Nat)) = [] := by
  refine ⟨?_, ?_, ?_⟩
  · exact ((C3_list_fidelity [10] [10, 20] [20] 0 ⟨[(5, some 10)], 6⟩ rfl).2.1 rfl).2
  · exact (C3_list_fidelity [10] [7, 8] [20] 0 ⟨[(5, some 10)], 6⟩ rfl).1 none rfl
  · have h := (C3_list_fidelity [10] [] ([] : List Nat) 10
      ⟨[(5, some 10)], 6⟩ rfl).2.2 rfl
    simpa using h

/-! ## Two-way bind directive (src/component.ts lines 793-847)

State values are strings or nested objects. getValue resolves the dot path by
the reduce over acc?.[k]; setValue resolves the parent of the last segment the
same way and assigns parent[last] when the parent resolved to an object (a
failed resolution makes the write a silent no-op). The control is a text
input: its displayed value is a string, undefined renders as the empty string
(value ?? two quotes), and a non-string object is approximated by the DOM
string coercion. An input event carries the value already typed into the
control; dispatching it runs setValue synchronously, while the state to
control direction runs when the scheduled flush re-runs the bind binding,
modelled by refresh. Programmatic value assignment fires no input event, so
refresh performs no state write. -/

inductive SVal
  | str (s : String)
  | obj (fields : List (String × SVal))

/-- Path read, mirroring key.split and the reduce over acc?.[k] (line 797). -/
def getPath : SVal → List String → Option SVal
  | v, [] => some v
  | SVal.obj fs, k :: ks =>
    match lookupA k fs with
    | some v => getPath v ks
    | none => none
  | SVal.str _, _ :: _ => none

/-- Path write, mirroring setValue (lines 798-803): resolve the parent of the
last segment and assign into it when it is an object, else do nothing. -/
def setPath (root : SVal) : List String → SVal → SVal
  | [], _ => root
  | [k], v =>
    match root with
    | SVal.obj fs => SVal.obj (assocSet k v fs)
    | SVal.str s => SVal.str s
  | k :: k2 :: ks, v =>
    match root with
    | SVal.obj fs =>
      match lookupA k fs with
      | some child => SVal.obj (assocSet k (setPath child (k2 :: ks) v) fs)
      | none => SVal.obj fs
    | SVal.str s => SVal.str s

/-- Check that the parent of the last path segment resolves to an object, so
that setValue actually writes. -/
def pathWritable : SVal → List String → Bool
  | SVal.obj _, [_] => true
  | SVal.obj fs, k :: k2 :: ks =>
    match lookupA k fs with
    | some child => pathWritable child (k2 :: ks)
    | none => false
  | _, _ => false

theorem getPath_setPath (root : SVal) (p : List String) (v : SVal)
    (hw : pathWritable root p = true) : getPath (setPath root p v) p = some v := by
  induction p generalizing root with
  | nil =>
    cases root <;> simp [pathWritable] at hw
  | cons k ks ih =>
    cases root with
    | str s => simp [pathWritable] at hw
    | obj fs =>
      cases ks with
      | nil =>
        show getPath (SVal.obj (assocSet k v fs)) [k] = some v
        simp [getPath, lookupA_assocSet_self]
      | cons k2 ks2 =>
        cases hc : lookupA k fs with
        | none => simp [pathWritable, hc] at hw
        | some child =>
          have hw2 : pathWritable child (k2 :: ks2) = true := by
            simp [pathWritable, hc] at hw
            exact hw
          simp only [setPath, hc]
          simp [getPath, lookupA_assocSet_self]
          exact ih _ hw2

/-- What the control displays for a resolved state value (lines 816-825):
the string itself, the empty string for undefined, and the DOM coercion for a
non-string object. -/
def controlValueOf : Option SVal → String
  | none => ""
  | some (SVal.str s) => s
  | some (SVal.obj _) => "[object Object]"

/-- One bind directive instance: the component state root, the control
displayed value, and whether a flush is still pending. -/
structure FormSys where
  state : SVal
  control : String
  pendingFlush : Bool

/-- Dispatch of an input event whose target value is v (lines 828-839):
the control already shows v, and updateState writes v through the path. -/
def onInput (path : List String) (v : String) (sys : FormSys) : FormSys :=
  { state := setPath sys.state path (SVal.str v)
  , control := v
  , pendingFlush := true }

/-- Programmatic state write through the proxy (schedules a flush). -/
def writeState (path : List String) (v : SVal) (sys : FormSys) : FormSys :=
  { sys with state := setPath sys.state path v, pendingFlush := true }

/-- The state to control binding run at flush time (lines 816-825): it pushes
the current state value into the control and performs no state write. -/
def refresh (path : List String) (sys : FormSys) : FormSys :=
  { sys with
    control := controlValueOf (getPath sys.state path)
    pendingFlush := false }

/-- Claim C4: for a writable bind path on a text control, an input event with
value v makes the state at the path v immediately; a programmatic write of w
followed by the flush makes the control display w; and the flush after an
input event is a fixed point, it only clears the pending flag and rewrites
the control with the value it already shows, so no echo loop arises. -/
theorem C4_bind_roundtrip (path : List String) (st : SVal) (cv v w : String)
    (hw : pathWritable st path = true) :
    getPath (onInput path v ⟨st, cv, false⟩).state path = some (SVal.str v) ∧
    (refresh path (writeState path (SVal.str w) ⟨st, cv, false⟩)).control = w ∧
    refresh path (onInput path v ⟨st, cv, false⟩) =
      { onInput path v ⟨st, cv, false⟩ with pendingFlush := false } := by
  have h1 : getPath (setPath st path (SVal.str v)) path = some (SVal.str v) :=
    getPath_setPath st path _ hw
  have h2 : getPath (setPath st path (SVal.str w)) path = some (SVal.str w) :=
    getPath_setPath st path _ hw
  refine ⟨h1, ?_, ?_⟩
  · show controlValueOf (getPath (setPath st path (SVal.str w)) path) = w
    rw [h2]
    rfl
  · have h3 : controlValueOf (getPath (setPath st path (SVal.str v)) path) = v := by
      rw [h1]
      rfl
    simp [refresh, onInput, h3]

/-- Witness for C4_bind_roundtrip: bind name with name Alice, typing Bob,
then writing Carol. -/
theorem C4_bind_roundtrip_witness :
    getPath (onInput ["name"] "Bob"
      ⟨SVal.obj [("name", SVal.str "Alice")], "Alice", false⟩).state ["name"] =
      some (SVal.str "Bob") ∧
    (refresh ["name"] (writeState ["name"] (SVal.str "Carol")
      ⟨SVal.obj [("name", SVal.str "Alice")], "Alice", false⟩)).control = "Carol" ∧
    refresh ["name"] (onInput ["name"] "Bob"
      ⟨SVal.obj [("name", SVal.str "Alice")], "Alice", false⟩) =
      { (onInput ["name"] "Bob"
          ⟨SVal.obj [("name", SVal.str "Alice")], "Alice", false⟩) with
        pendingFlush := false } :=
  C4_bind_roundtrip ["name"] (SVal.obj [("name", SVal.str "Alice")])
    "Alice" "Bob" "Carol" rfl

/-! ## Expression evaluator (src/component.ts lines 47-54, 279-291)

An expression runs as new Function with a scope object layering the loop
context over the component state; the whole call, compilation included, sits
inside the try of evaluate, whose catch is an empty block that returns
undefined: nothing is written to the console there (lines 288-290), and the
catch wrapping the tracked initial run inside bind is empty too (line 411).
Expressions are modelled by a small syntax with the two error sources
relevant here: an unknown identifier (ReferenceError under with) and a
property read on undefined (TypeError); property reads on other primitives
yield undefined. evalRaw is evaluation before the catch, evaluate is the
guarded call site, and evaluateLog is the console output the call emits. -/

inductive JVal
  | undef
  | vstr (s : String)
  | vnum (n : Int)
  | vbool (b : Bool)
deriving Repr, DecidableEq

inductive JExpr
  | lit (v : JVal)
  | varRef (name : String)
  | field (e : JExpr) (name : String)
deriving Repr, DecidableEq

/-- Evaluation of the compiled expression body, errors surfaced as Except. -/
def evalRaw : JExpr → List (String × JVal) → Except String JVal
  | JExpr.lit v, _ => Except.ok v
  | JExpr.varRef n, scope =>
    match lookupA n scope with
    | some v => Except.ok v
    | none => Except.error ("ReferenceError: " ++ n)
  | JExpr.field e n, scope =>
    match evalRaw e scope with
    | Except.error msg => Except.error msg
    | Except.ok JVal.undef => Except.error ("TypeError: cannot read " ++ n)
    | Except.ok _ => Except.ok JVal.undef

/-- The evaluate helper (lines 279-291): any exception is caught at this
boundary and turned into undefined. -/
def evaluate (e : JExpr) (scope : List (String × JVal)) : JVal :=
  match evalRaw e scope with
  | Except.ok v => v
  | Except.error _ => JVal.undef

/-- Console output of one evaluate call, transcribed from the source: the try
body logs nothing and the catch block (lines 288-290) is empty, so both
branches emit no log entry. -/
def evaluateLog (e : JExpr) (scope : List (String × JVal)) : List String :=
  match evalRaw e scope with
  | Except.ok _ => []
  | Except.error _ => []

/-- One render pass over a list of bindings, each evaluating its expression
and applying the result to its node. -/
def renderPass (es : List JExpr) (scope : List (String × JVal)) : List JVal :=
  es.map (fun e => evaluate e scope)

/-- Console output of one render pass: the concatenated logs of its evaluate
calls. -/
def renderPassLog (es : List JExpr) (scope : List (String × JVal)) : List String :=
  (es.map (fun e => evaluateLog e scope)).flatten

theorem evaluateLog_eq_nil (e : JExpr) (scope : List (String × JVal)) :
    evaluateLog e scope = [] := by
  unfold evaluateLog
  cases evalRaw e scope <;> rfl

theorem renderPassLog_eq_nil (es : List JExpr) (scope : List (String × JVal)) :
    renderPassLog es scope = [] := by
  unfold renderPassLog
  induction es with
  | nil => rfl
  | cons e es ih => simp [evaluateLog_eq_nil, ih]

/-- Claim C6, counterexample: evaluating an unknown identifier raises a
ReferenceError, which is caught and yields undefined, but nothing is logged:
the catch of evaluate is an empty block, refuting the part of the claim that
asserts the error is logged at the evaluation boundary. -/
theorem C6_error_not_logged :
    evalRaw (JExpr.varRef "missing") [] =
      Except.error ("ReferenceError: " ++ "missing") ∧
    evaluate (JExpr.varRef "missing") [] = JVal.undef ∧
    evaluateLog (JExpr.varRef "missing") [] = [] :=
  ⟨rfl, rfl, rfl⟩

/-- Claim C6, amended: an expression whose evaluation raises is caught at the
evaluation boundary and yields undefined, but without any log entry (the
catch is silent); the surrounding render pass still processes every binding:
the pass output has one entry per binding, every other binding receives
exactly its own evaluated value, and the pass emits no console output. -/
theorem C6_eval_error_recovery (es : List JExpr) (scope : List (String × JVal))
    (i : Nat) (hi : i < es.length) (msg : String)
    (herr : evalRaw es[i] scope = Except.error msg) :
    (renderPass es scope).length = es.length ∧
    (renderPass es scope)[i]? = some JVal.undef ∧
    (∀ j : Nat, (renderPass es scope)[j]? = (es[j]?).map (fun e => evaluate e scope)) ∧
    renderPassLog es scope = [] := by
  refine ⟨by simp [renderPass], ?_, ?_, ?_⟩
  · unfold renderPass
    rw [List.getElem?_map, List.getElem?_eq_getElem hi]
    show some (evaluate es[i] scope) = some JVal.undef
    unfold evaluate
    rw [herr]
  · intro j
    unfold renderPass
    rw [List.getElem?_map]
  · exact renderPassLog_eq_nil es scope

/-- Witness for C6_eval_error_recovery: a broken reference next to a healthy
literal binding, with empty console output. -/
theorem C6_eval_error_recovery_witness :
    (renderPass [JExpr.varRef "missing", JExpr.lit (JVal.vstr "ok")] []).length = 2 ∧
    (renderPass [JExpr.varRef "missing", JExpr.lit (JVal.vstr "ok")] [])[0]? =
      some JVal.undef ∧
    (renderPass [JExpr.varRef "missing", JExpr.lit (JVal.vstr "ok")] [])[1]? =
      some (JVal.vstr "ok") ∧
    renderPassLog [JExpr.varRef "missing", JExpr.lit (JVal.vstr "ok")] [] = [] := by
  have h := C6_eval_error_recovery [JExpr.varRef "missing", JExpr.lit (JVal.vstr "ok")]
    [] 0 (by decide) ("ReferenceError: " ++ "missing") rfl
  refine ⟨h.1, h.2.1, ?_, h.2.2.2⟩
  rw [h.2.2.1 1]
  rfl

end Minui
